import Mathlib

/-! virtual-branches-action: configuration extraction, validation and application

A shallow embedding of `util/util.go`, `provider/provider.go` and
`provider/github/github.go`.

Conventions of the embedding:

* Go strings are Lean `String`s (sequences of Unicode characters).  All the
  character sets the program handles are ASCII, so the byte view and the
  character view of a valid UTF-8 string coincide.
* a Go `error` is represented by its message; the `nil` error is `none`.
* a Go function with several results returns a structure or a pair holding all
  of them, the zero value standing where the source leaves a result unassigned.
* a nil slice and an empty slice are both the empty list.
* calls to the outside world (the go-git repository, the GitHub client,
  standard output) are recorded, in order, in a list of `Event`s; the answers
  of the two clients are fields of `Provider`, and the TOML decoder, a pure
  library function, is a parameter.
-/

namespace VirtualBranches

/-! ## package util -/

/-- The message of a Go `error` value. -/
abbrev Error := String

/-- The bracket expression `[a-zA-Z0-9_\-]` of `branchRegex`. -/
def branchClass (c : Char) : Bool :=
  ('a' ≤ c && c ≤ 'z') || ('A' ≤ c && c ≤ 'Z') || ('0' ≤ c && c ≤ '9') || c == '_' || c == '-'

/-- A match of `[a-zA-Z0-9_\-]+` starting at the head of `s`: the pattern is
one or more characters of the class, so a match starts here exactly when the
leftmost-longest run of class characters at the head of `s` is non-empty. -/
def branchRegexMatchHere (s : List Char) : Bool :=
  !(s.takeWhile branchClass).isEmpty

/-- The unanchored search of `Regexp.MatchString`: it reports whether the text
contains any match of the pattern, trying every start position from left to
right. -/
def branchRegexMatchString : List Char → Bool
  | [] => branchRegexMatchHere []
  | c :: s => branchRegexMatchHere (c :: s) || branchRegexMatchString s

/-- `util.ValidateTargetBranchName`: `branchRegex.MatchString(name)`. -/
def ValidateTargetBranchName (name : String) : Bool :=
  branchRegexMatchString name.data

/-- `util.ValidateVirtualBranchPrefix`: `branchRegex.MatchString(name)`. -/
def ValidateVirtualBranchPrefix (name : String) : Bool :=
  branchRegexMatchString name.data

/-- The documented rule for a target name, `^[a-zA-Z0-9_-]+$`: the name is
non-empty and every character is one of a-z, A-Z, 0-9, underscore, dash.
This definition follows the specification, not the code. -/
def matchesWholeName (name : String) : Bool :=
  !name.data.isEmpty && name.data.all branchClass

/-- `util.StringLookup`, a `map[string]bool`: an association list in which the
first binding of a key is the current one. -/
abbrev StringLookup := List (String × Bool)

/-- The index expression `branches[key]`: the zero value `false` for a key that
is not in the map. -/
def StringLookup.index (m : StringLookup) (key : String) : Bool :=
  (m.lookup key).getD false

/-- The assignment `m[key] = true`. -/
def StringLookup.setTrue (m : StringLookup) (key : String) : StringLookup :=
  (key, true) :: m

/-! ## package provider -/

/-- `provider.VirtualBranchConfig`. -/
structure VirtualBranchConfig where
  Target : String
  Base : String
  Track : List String
  deriving DecidableEq, Repr

/-! ## package github: validation -/

/-- `validateBranchesExist`: the first searched branch that the lookup does not
map to true makes the function return `branch does not exist: <branch>`. -/
def validateBranchesExist (branches : StringLookup) : List String → Option Error
  | [] => none
  | branch :: rest =>
    if !branches.index branch then
      some ("branch does not exist: " ++ branch)
    else
      validateBranchesExist branches rest

/-- `validateConfiguration`: the branch check on `Base` followed by `Track`,
then the target-name check. -/
def validateConfiguration (config : VirtualBranchConfig) (branches : StringLookup) :
    Option Error :=
  let searchBranches := [config.Base] ++ config.Track
  match validateBranchesExist branches searchBranches with
  | some err => some err
  | none =>
    if !ValidateTargetBranchName config.Target then
      some "target branch name did not match the allowed characters of: a-z, A-Z, 0-9, _, -"
    else
      none

/-! ## package github: parsing one issue -/

/-- The part of `github.Issue` the program reads: the optional body text. -/
structure Issue where
  Body : Option String
  deriving DecidableEq, Repr

/-- `Issue.GetBody`: the body, or the empty string when there is none. -/
def Issue.GetBody (issue : Issue) : String :=
  issue.Body.getD ""

/-- `strings.TrimRight` for an ASCII cutset: drop the longest suffix made of
cutset characters. -/
def trimRight (cutset s : List Char) : List Char :=
  s.rdropWhile (fun c => cutset.contains c)

/-- `strings.TrimLeft` for an ASCII cutset: drop the longest prefix made of
cutset characters. -/
def trimLeft (cutset s : List Char) : List Char :=
  s.dropWhile (fun c => cutset.contains c)

/-- `strings.Trim(s, cutset)`: all leading and trailing characters contained in
the cutset are removed (the library trims the right end, then the left). -/
def Trim (s cutset : String) : String :=
  ⟨trimLeft cutset.data (trimRight cutset.data s.data)⟩

/-- The cutset that `processIssue` passes to `strings.Trim`. -/
def fenceCutset : String := "`toml"

/-- The struct `issueBody` that the TOML text is decoded into. -/
structure issueBody where
  Target : String
  Base : String
  Track : List String
  deriving DecidableEq, Repr

/-- A decoded TOML value, as far as the configuration schema needs it. -/
inductive TomlValue where
  | str (s : String)
  | strs (xs : List String)
  | other
  deriving DecidableEq, Repr

/-- `toml.MetaData`, reduced to the top level of its mapping: the keys the text
defines, each with its value. -/
structure MetaData where
  mapping : List (String × TomlValue)
  deriving DecidableEq, Repr

/-- `MetaData.IsDefined(key)` for a single top-level key: the key is in the
mapping, whatever its value. -/
def MetaData.IsDefined (metadata : MetaData) (key : String) : Bool :=
  (metadata.mapping.lookup key).isSome

/-- What `toml.Decode(bodyStr, &issueBody)` leaves behind: the metadata, the
filled struct and the error. -/
structure DecodeResult where
  meta : MetaData
  body : issueBody
  err : Option Error
  deriving DecidableEq, Repr

/-- `isDefinedInMeta`: the first key that is not defined makes the function
return `<key> was not defined in configuration`. -/
def isDefinedInMeta (metadata : MetaData) : List String → Option Error
  | [] => none
  | key :: keys =>
    if !metadata.IsDefined key then
      some (key ++ " was not defined in configuration")
    else
      isDefinedInMeta metadata keys

/-- `virtualBranchConfigFrom`: a field-by-field copy. -/
def virtualBranchConfigFrom (issue : issueBody) : VirtualBranchConfig :=
  { Target := issue.Target, Base := issue.Base, Track := issue.Track }

/-- The zero value of `VirtualBranchConfig`, which the named result `config`
of `processIssue` holds on every error return. -/
def zeroConfig : VirtualBranchConfig :=
  { Target := "", Base := "", Track := [] }

/-- `processIssue`, with the TOML decoder as a parameter: trim the body, decode
it, check that the three keys are defined, copy the fields. -/
def processIssue (Decode : String → DecodeResult) (issue : Issue) :
    VirtualBranchConfig × Option Error :=
  let bodyStr := Trim issue.GetBody fenceCutset
  let r := Decode bodyStr
  match r.err with
  | some err => (zeroConfig, some err)
  | none =>
    match isDefinedInMeta r.meta ["Target", "Base", "Track"] with
    | some err => (zeroConfig, some err)
    | none => (virtualBranchConfigFrom r.body, none)

/-! ## package github: the provider and its collaborators -/

/-- A call that leaves the program, in the order the program makes it. -/
inductive Event where
  | Branches
  | ListByRepo (page : Nat)
  | Println (msg : Error)
  | Dump (config : VirtualBranchConfig)
  | FetchContext (ref : String)
  | CommitObjects
  deriving DecidableEq, Repr

/-- The results of a function together with the calls it made. -/
structure Outcome (α : Type) where
  trace : List Event
  value : α
  err : Option Error

/-- `github.IssueListByRepoOptions`, the fields the program sets. -/
structure IssueListByRepoOptions where
  State : String
  Labels : List String
  Page : Nat
  deriving DecidableEq, Repr

/-- The three results of `Issues.ListByRepo`: a page of issues, the
`NextPage` field of the response, and the error. -/
structure ListByRepoResult where
  issues : List Issue
  NextPage : Nat
  err : Option Error
  deriving DecidableEq, Repr

/-- The GitHub client: the answer of `Issues.ListByRepo(ctx, owner, repo, opt)`. -/
structure GitHubClient where
  ListByRepo : String → String → IssueListByRepoOptions → ListByRepoResult

/-- The reference iterator that `Branches()` returns: `ForEach` hands the
callback each reference name in turn and then reports `err`. -/
structure ReferenceIter where
  names : List String
  err : Option Error
  deriving DecidableEq, Repr

/-- The repository client: the answers of `Branches()` and of
`FetchContext(ctx, opts)` for a one-element refspec list. -/
structure RepositoryClient where
  Branches : ReferenceIter × Option Error
  FetchContext : String → Option Error

/-- The struct `Provider` with the clients it calls.  The methods use
`g.RepositoryClient`, which the struct in the source does not declare; it is a
field here. -/
structure Provider where
  GitHubClient : GitHubClient
  RepositoryClient : RepositoryClient
  Owner : String
  Repository : String
  Label : String
  Prefix : String
  RepositoryPath : String

/-- The loop of `getAllIssues`.  Each iteration requests the page in `opt`;
an error ends the function with no issues, a zero `NextPage` ends the loop.
The loop runs as long as the client keeps naming a next page, so the model
takes a bound on the number of iterations and returns `none` when it is
exhausted. -/
def getAllIssuesLoop (g : Provider) :
    Nat → IssueListByRepoOptions → List Issue → Option (Outcome (List Issue))
  | 0, _, _ => none
  | fuel + 1, opt, allIssues =>
    let r := g.GitHubClient.ListByRepo g.Owner g.Repository opt
    match r.err with
    | some err =>
      some ⟨[Event.ListByRepo opt.Page], [], some ("error retrieving issues from github: " ++ err)⟩
    | none =>
      let allIssues := allIssues ++ r.issues
      if r.NextPage = 0 then
        some ⟨[Event.ListByRepo opt.Page], allIssues, none⟩
      else
        match getAllIssuesLoop g fuel { opt with Page := r.NextPage } allIssues with
        | none => none
        | some o => some ⟨Event.ListByRepo opt.Page :: o.trace, o.value, o.err⟩

/-- `getAllIssues`: open issues carrying the label, from the first page on. -/
def getAllIssues (g : Provider) (fuel : Nat) : Option (Outcome (List Issue)) :=
  getAllIssuesLoop g fuel { State := "open", Labels := [g.Label], Page := 0 } []

/-- `getExistingBranches`: a lookup holding every reference name the
repository lists. -/
def getExistingBranches (g : Provider) : Outcome StringLookup :=
  match g.RepositoryClient.Branches with
  | (_, some err) => ⟨[Event.Branches], [], some ("error getting branches: " ++ err)⟩
  | (branches, none) =>
    let allBranches := branches.names.foldl StringLookup.setTrue []
    match branches.err with
    | some err => ⟨[Event.Branches], [], some ("error iterating over branches branches: " ++ err)⟩
    | none => ⟨[Event.Branches], allBranches, none⟩

/-- One iteration of the loop of `GetConfigurations` over the state
`(allConfigs, trace)`: an issue whose parsing or validation fails is printed
and skipped, any other is appended and dumped. -/
def issueStep (Decode : String → DecodeResult) (branches : StringLookup)
    (st : List VirtualBranchConfig × List Event) (issue : Issue) :
    List VirtualBranchConfig × List Event :=
  match processIssue Decode issue with
  | (_, some err) => (st.1, st.2 ++ [Event.Println err])
  | (config, none) =>
    match validateConfiguration config branches with
    | some err => (st.1, st.2 ++ [Event.Println err])
    | none => (st.1 ++ [config], st.2 ++ [Event.Dump config])

/-- `Provider.GetConfigurations`: the branch lookup, then the issues, then the
loop; either retrieval error is returned at once with a nil list. -/
def GetConfigurations (g : Provider) (Decode : String → DecodeResult) (fuel : Nat) :
    Option (Outcome (List VirtualBranchConfig)) :=
  let b := getExistingBranches g
  match b.err with
  | some err => some ⟨b.trace, [], some err⟩
  | none =>
    match getAllIssues g fuel with
    | none => none
    | some i =>
      match i.err with
      | some err => some ⟨b.trace ++ i.trace, [], some err⟩
      | none =>
        let st := i.value.foldl (issueStep Decode b.value) ([], [])
        some ⟨b.trace ++ i.trace ++ st.2, st.1, none⟩

/-! ## package github: applying configurations -/

/-- The loop of `applyConfiguration` over the entries of `Track`: format the
reference, fetch it, return the error of a failed fetch, otherwise call
`CommitObjects` and go on. -/
def applyConfigurationLoop (g : Provider) : List String → List Event × Option Error
  | [] => ([], none)
  | track :: rest =>
    let ref := "refs/remotes/orign/" ++ track
    match g.RepositoryClient.FetchContext ref with
    | some err => ([Event.FetchContext ref], some err)
    | none =>
      let r := applyConfigurationLoop g rest
      (Event.FetchContext ref :: Event.CommitObjects :: r.1, r.2)

/-- `Provider.applyConfiguration`. -/
def applyConfiguration (g : Provider) (vbConfig : VirtualBranchConfig) :
    List Event × Option Error :=
  applyConfigurationLoop g vbConfig.Track

/-- `Provider.ApplyConfigurations`.  The body is the loop alone: it calls
`applyConfiguration` on each config as an expression statement, so the error
each call returns is dropped, and it ends without a return statement, so
nothing is ever stored in the two results; they are given here as their zero
values, the nil slice and the nil error. -/
def ApplyConfigurations (g : Provider) (configs : List VirtualBranchConfig) :
    Outcome (List (Option Error)) :=
  let trace := configs.foldl (fun tr config => tr ++ (applyConfiguration g config).1) []
  ⟨trace, [], none⟩

/-- The references a trace fetched, in order. -/
def fetchedRefs (trace : List Event) : List String :=
  trace.filterMap (fun e => match e with | Event.FetchContext ref => some ref | _ => none)

/-! ## Notions used to state the properties -/

/-- An issue is accepted when `processIssue` returns a nil error and
`validateConfiguration` returns nil for the config it produced. -/
def accepted (Decode : String → DecodeResult) (branches : StringLookup) (issue : Issue) :
    Bool :=
  (processIssue Decode issue).2.isNone &&
    (validateConfiguration (processIssue Decode issue).1 branches).isNone

/-- The page that iteration `k` (counted from zero) of the loop of
`getAllIssues` requests when the loop is entered with the options `opt`, or
`none` when the loop has ended before that iteration. -/
def pageOfIteration (g : Provider) : IssueListByRepoOptions → Nat → Option Nat
  | opt, 0 => some opt.Page
  | opt, k + 1 =>
    let r := g.GitHubClient.ListByRepo g.Owner g.Repository opt
    match r.err with
    | some _ => none
    | none =>
      if r.NextPage = 0 then none
      else pageOfIteration g { opt with Page := r.NextPage } k

/-! ## Sample collaborators -/

/-- A decoder that knows two texts: a complete configuration and one without
`Track`; every other text is a syntax error. -/
def sampleDecode (bodyStr : String) : DecodeResult :=
  if bodyStr = "\nTarget = \"x\"\nBase = \"main\"\nTrack = [\"a\"]\n" then
    ⟨⟨[("Target", TomlValue.str "x"), ("Base", TomlValue.str "main"),
        ("Track", TomlValue.strs ["a"])]⟩, ⟨"x", "main", ["a"]⟩, none⟩
  else if bodyStr = "Target = \"y\"\nBase = \"main\"" then
    ⟨⟨[("Target", TomlValue.str "y"), ("Base", TomlValue.str "main")]⟩,
      ⟨"y", "main", []⟩, none⟩
  else
    ⟨⟨[]⟩, ⟨"", "", []⟩, some "toml: expected key separator"⟩

/-- A repository with the branches `main` and `a`, in which fetching any
reference of branch `b` fails. -/
def sampleRepository : RepositoryClient where
  Branches := (⟨["main", "a"], none⟩, none)
  FetchContext := fun ref =>
    if ref = "refs/remotes/orign/b" ∨ ref = "refs/remotes/origin/b" then
      some "reference not found"
    else none

/-- A repository whose branches cannot be listed. -/
def brokenRepository : RepositoryClient where
  Branches := (⟨[], none⟩, some "repository does not exist")
  FetchContext := fun _ => none

/-- A tracker with two pages, page 0 naming page 2 as the next one: a fenced
valid issue and an issue without `Track` on the first, an unparsable issue and
a second copy of the valid one on the last. -/
def sampleTracker : GitHubClient where
  ListByRepo := fun _ _ opt =>
    if opt.Page = 0 then
      ⟨[⟨some "```toml\nTarget = \"x\"\nBase = \"main\"\nTrack = [\"a\"]\n```"⟩,
        ⟨some "Target = \"y\"\nBase = \"main\""⟩], 2, none⟩
    else if opt.Page = 2 then
      ⟨[⟨some "hello"⟩, ⟨some "\nTarget = \"x\"\nBase = \"main\"\nTrack = [\"a\"]\n"⟩], 0, none⟩
    else
      ⟨[], 0, none⟩

/-- A tracker whose page 0 names page 2 as the next one and whose page 2
fails. -/
def failingTracker : GitHubClient where
  ListByRepo := fun _ _ opt =>
    if opt.Page = 0 then
      ⟨[⟨some "Target = \"y\"\nBase = \"main\""⟩], 2, none⟩
    else
      ⟨[], 0, some "502 Bad Gateway"⟩

/-- A provider over the given clients. -/
def sampleProvider (tracker : GitHubClient) (repository : RepositoryClient) : Provider where
  GitHubClient := tracker
  RepositoryClient := repository
  Owner := "ezekiel"
  Repository := "virtual-branches-action"
  Label := "virtual-branch"
  Prefix := "vb"
  RepositoryPath := "."

/-! ## Auxiliary facts -/

theorem branchRegexMatchString_eq_any (s : List Char) :
    branchRegexMatchString s = s.any branchClass := by
  induction s with
  | nil => rfl
  | cons c s ih =>
    simp only [branchRegexMatchString, branchRegexMatchHere, ih, List.any_cons]
    by_cases hc : branchClass c = true <;> simp [List.takeWhile_cons, hc]

theorem lookup_isSome_iff {β : Type} (k : String) (l : List (String × β)) :
    (l.lookup k).isSome = true ↔ ∃ v, (k, v) ∈ l := by
  induction l with
  | nil => simp
  | cons a l ih =>
    obtain ⟨a1, a2⟩ := a
    by_cases h : k = a1
    · subst h
      simp [List.lookup_cons]
    · have h2 : (k == a1) = false := by simpa using h
      simp [List.lookup_cons, h2, ih, h]

theorem validateBranchesExist_eq_none (branches : StringLookup) (l : List String)
    (h : ∀ b ∈ l, branches.index b = true) : validateBranchesExist branches l = none := by
  induction l with
  | nil => rfl
  | cons b l ih =>
    have hb : branches.index b = true := h b (List.mem_cons_self _ _)
    simp only [validateBranchesExist, hb]
    exact ih (fun x hx => h x (List.mem_cons_of_mem _ hx))

theorem validateBranchesExist_first_missing (branches : StringLookup)
    (pre : List String) (b : String) (post : List String)
    (hpre : ∀ x ∈ pre, branches.index x = true) (hb : branches.index b = false) :
    validateBranchesExist branches (pre ++ b :: post) = some ("branch does not exist: " ++ b) := by
  induction pre with
  | nil => simp [validateBranchesExist, hb]
  | cons a pre ih =>
    have ha : branches.index a = true := hpre a (List.mem_cons_self _ _)
    simp only [List.cons_append, validateBranchesExist, ha]
    exact ih (fun x hx => hpre x (List.mem_cons_of_mem _ hx))

theorem exists_first_false (p : String → Bool) (l : List String)
    (h : ∃ b ∈ l, p b = false) :
    ∃ pre b post, l = pre ++ b :: post ∧ (∀ x ∈ pre, p x = true) ∧ p b = false := by
  induction l with
  | nil => simp at h
  | cons a l ih =>
    by_cases ha : p a = false
    · exact ⟨[], a, l, rfl, by simp, ha⟩
    · have ha2 : p a = true := by simpa using ha
      obtain ⟨b, hb, hbi⟩ := h
      have hbl : b ∈ l := by
        rcases List.mem_cons.mp hb with rfl | hbl
        · exact absurd hbi ha
        · exact hbl
      obtain ⟨pre, c, post, hl, hpre, hc⟩ := ih ⟨b, hbl, hbi⟩
      refine ⟨a :: pre, c, post, by simp [hl], ?_, hc⟩
      intro x hx
      rcases List.mem_cons.mp hx with rfl | hx
      · exact ha2
      · exact hpre x hx

theorem isDefinedInMeta_eq_none_iff (metadata : MetaData) (keys : List String) :
    isDefinedInMeta metadata keys = none ↔ ∀ k ∈ keys, metadata.IsDefined k = true := by
  induction keys with
  | nil => simp [isDefinedInMeta]
  | cons k keys ih =>
    by_cases hk : metadata.IsDefined k = true
    · simp [isDefinedInMeta, hk, ih]
    · simp [isDefinedInMeta, hk]

theorem isDefinedInMeta_first_undefined (metadata : MetaData)
    (pre : List String) (k : String) (post : List String)
    (hpre : ∀ x ∈ pre, metadata.IsDefined x = true) (hk : metadata.IsDefined k = false) :
    isDefinedInMeta metadata (pre ++ k :: post)
      = some (k ++ " was not defined in configuration") := by
  induction pre with
  | nil => simp [isDefinedInMeta, hk]
  | cons a pre ih =>
    have ha : metadata.IsDefined a = true := hpre a (List.mem_cons_self _ _)
    simp only [List.cons_append, isDefinedInMeta, ha]
    exact ih (fun x hx => hpre x (List.mem_cons_of_mem _ hx))

theorem IsDefined_eq_true_iff (metadata : MetaData) (k : String) :
    metadata.IsDefined k = true ↔ ∃ v, (k, v) ∈ metadata.mapping :=
  lookup_isSome_iff k metadata.mapping

theorem IsDefined_eq_false_iff (metadata : MetaData) (k : String) :
    metadata.IsDefined k = false ↔ ∀ v, (k, v) ∉ metadata.mapping := by
  rw [← Bool.not_eq_true, IsDefined_eq_true_iff]
  simp

theorem dropWhile_append_of_all {α : Type} (p : α → Bool) (o l : List α)
    (ho : ∀ c ∈ o, p c = true) : (o ++ l).dropWhile p = l.dropWhile p := by
  induction o with
  | nil => rfl
  | cons a o ih =>
    have ha : p a = true := ho a (List.mem_cons_self _ _)
    rw [List.cons_append, List.dropWhile_cons_of_pos ha]
    exact ih (fun c hc => ho c (List.mem_cons_of_mem _ hc))

theorem rdropWhile_append_of_all {α : Type} (p : α → Bool) (l t : List α)
    (ht : ∀ c ∈ t, p c = true) : (l ++ t).rdropWhile p = l.rdropWhile p := by
  unfold List.rdropWhile
  rw [List.reverse_append, dropWhile_append_of_all p t.reverse l.reverse]
  intro c hc
  exact ht c (List.mem_reverse.mp hc)

theorem rdropWhile_cons_of_ne_nil {α : Type} (p : α → Bool) (a : α) (x : List α)
    (hx : x.rdropWhile p ≠ []) : (a :: x).rdropWhile p = a :: x.rdropWhile p := by
  induction x using List.reverseRecOn with
  | nil => simp at hx
  | append_singleton y z ih =>
    by_cases hz : p z = true
    · rw [List.rdropWhile_concat_pos _ _ _ hz] at hx
      rw [← List.cons_append, List.rdropWhile_concat_pos _ _ _ hz,
        List.rdropWhile_concat_pos _ _ _ hz]
      exact ih hx
    · rw [← List.cons_append, List.rdropWhile_concat_neg _ _ _ hz,
        List.rdropWhile_concat_neg _ _ _ hz]
      rfl

theorem dropWhile_rdropWhile_append_of_all {α : Type} (p : α → Bool) (o b : List α)
    (ho : ∀ c ∈ o, p c = true) :
    ((o ++ b).rdropWhile p).dropWhile p = (b.rdropWhile p).dropWhile p := by
  induction o with
  | nil => rfl
  | cons a o ih =>
    have ha : p a = true := ho a (List.mem_cons_self _ _)
    have ih2 := ih (fun c hc => ho c (List.mem_cons_of_mem _ hc))
    by_cases hnil : (o ++ b).rdropWhile p = []
    · have hall : ∀ c ∈ a :: (o ++ b), p c = true := by
        intro c hc
        rcases List.mem_cons.mp hc with rfl | hc
        · exact ha
        · exact List.rdropWhile_eq_nil_iff.mp hnil c hc
      rw [List.cons_append, List.rdropWhile_eq_nil_iff.mpr hall, ← ih2, hnil]
    · rw [List.cons_append, rdropWhile_cons_of_ne_nil p a (o ++ b) hnil,
        List.dropWhile_cons_of_pos ha]
      exact ih2

theorem Trim_wrapped (opening b closing cutset : String)
    (ho : ∀ c ∈ opening.data, cutset.data.contains c = true)
    (hc : ∀ c ∈ closing.data, cutset.data.contains c = true) :
    Trim (opening ++ b ++ closing) cutset = Trim b cutset := by
  unfold Trim trimLeft trimRight
  congr 1
  rw [String.data_append, String.data_append,
    rdropWhile_append_of_all _ _ _ hc,
    dropWhile_rdropWhile_append_of_all _ _ _ ho]

theorem issueStep_fst (Decode : String → DecodeResult) (branches : StringLookup)
    (st : List VirtualBranchConfig × List Event) (issue : Issue) :
    (issueStep Decode branches st issue).1
      = st.1 ++ (if accepted Decode branches issue = true
          then [(processIssue Decode issue).1] else []) := by
  unfold issueStep accepted
  rcases hp : processIssue Decode issue with ⟨config, err⟩
  cases err with
  | some e => simp
  | none =>
    cases hv : validateConfiguration config branches with
    | some e => simp [hv]
    | none => simp [hv]

theorem foldl_issueStep_fst (Decode : String → DecodeResult) (branches : StringLookup)
    (issues : List Issue) (st : List VirtualBranchConfig × List Event) :
    (issues.foldl (issueStep Decode branches) st).1
      = st.1 ++ (issues.filter (accepted Decode branches)).map
          (fun issue => (processIssue Decode issue).1) := by
  induction issues generalizing st with
  | nil => simp
  | cons issue issues ih =>
    rw [List.foldl_cons, ih, issueStep_fst]
    by_cases ha : accepted Decode branches issue = true
    · simp [ha, List.filter_cons]
    · simp [ha, List.filter_cons]

theorem getExistingBranches_trace (g : Provider) :
    (getExistingBranches g).trace = [Event.Branches] := by
  unfold getExistingBranches
  rcases g.RepositoryClient.Branches with ⟨branches, err⟩
  cases err with
  | some e => rfl
  | none =>
    cases hb : branches.err with
    | some e => simp [hb]
    | none => simp [hb]

theorem getAllIssuesLoop_error (g : Provider) (k : Nat) :
    ∀ (fuel : Nat) (opt : IssueListByRepoOptions) (allIssues : List Issue) (page : Nat)
      (e : Error),
      pageOfIteration g opt k = some page →
      (g.GitHubClient.ListByRepo g.Owner g.Repository { opt with Page := page }).err = some e →
      k < fuel →
      ∃ tr, getAllIssuesLoop g fuel opt allIssues
        = some ⟨tr, [], some ("error retrieving issues from github: " ++ e)⟩ := by
  induction k with
  | zero =>
    intro fuel opt allIssues page e hpage herr hfuel
    obtain ⟨f, rfl⟩ : ∃ f, fuel = f + 1 := ⟨fuel - 1, by omega⟩
    simp only [pageOfIteration, Option.some.injEq] at hpage
    subst hpage
    have herr2 : (g.GitHubClient.ListByRepo g.Owner g.Repository opt).err = some e := herr
    exact ⟨[Event.ListByRepo opt.Page], by simp only [getAllIssuesLoop, herr2]⟩
  | succ k ih =>
    intro fuel opt allIssues page e hpage herr hfuel
    obtain ⟨f, rfl⟩ : ∃ f, fuel = f + 1 := ⟨fuel - 1, by omega⟩
    simp only [pageOfIteration] at hpage
    cases hr : (g.GitHubClient.ListByRepo g.Owner g.Repository opt).err with
    | some e2 => simp [hr] at hpage
    | none =>
      simp only [hr] at hpage
      by_cases hn : (g.GitHubClient.ListByRepo g.Owner g.Repository opt).NextPage = 0
      · simp [hn] at hpage
      · simp only [hn, if_false] at hpage
        obtain ⟨tr, htr⟩ := ih f _
          (allIssues ++ (g.GitHubClient.ListByRepo g.Owner g.Repository opt).issues)
          page e hpage herr (by omega)
        exact ⟨Event.ListByRepo opt.Page :: tr, by simp only [getAllIssuesLoop, hr, hn, if_false, htr]⟩

/-! ## Target names -/

/-- C1: `ValidateTargetBranchName` accepts the name `a/b`, which contains a
slash and therefore does not match `^[a-zA-Z0-9_-]+$` in full: the pattern is
searched for anywhere in the name instead of being matched against all of it. -/
theorem ValidateTargetBranchName_accepts_slash :
    ValidateTargetBranchName "a/b" = true ∧ matchesWholeName "a/b" = false := by
  decide

/-! ## Validation of a configuration -/

/-- C2: when `Base` or an entry of `Track` is not mapped to true by the branch
lookup, `validateConfiguration` returns `branch does not exist: <b>` for the
first such name `b` of the sequence Base, Track[0], Track[1], ..., whatever the
target name is. -/
theorem validateConfiguration_first_missing_branch (target base : String)
    (track : List String) (branches : StringLookup)
    (h : ∃ b ∈ base :: track, branches.index b = false) :
    ∃ pre b post, base :: track = pre ++ b :: post ∧
      (∀ x ∈ pre, branches.index x = true) ∧ branches.index b = false ∧
      validateConfiguration ⟨target, base, track⟩ branches
        = some ("branch does not exist: " ++ b) := by
  obtain ⟨pre, b, post, hl, hpre, hb⟩ :=
    exists_first_false (fun x => branches.index x) (base :: track) h
  refine ⟨pre, b, post, hl, hpre, hb, ?_⟩
  have hv := validateBranchesExist_first_missing branches pre b post hpre hb
  simp only [validateConfiguration, List.singleton_append, hl, hv]

theorem validateConfiguration_first_missing_branch_witness :
    ∃ pre b post, "main" :: ["missing"] = pre ++ b :: post ∧
      (∀ x ∈ pre, StringLookup.index [("a", true), ("main", true)] x = true) ∧
      StringLookup.index [("a", true), ("main", true)] b = false ∧
      validateConfiguration ⟨"not/valid", "main", ["missing"]⟩ [("a", true), ("main", true)]
        = some ("branch does not exist: " ++ b) :=
  validateConfiguration_first_missing_branch "not/valid" "main" ["missing"]
    [("a", true), ("main", true)] ⟨"missing", by simp, by decide⟩

/-- C3: when `Base` and every entry of `Track` are mapped to true by the branch
lookup and `Target` is a non-empty string of characters a-z, A-Z, 0-9,
underscore and dash, `validateConfiguration` returns nil. -/
theorem validateConfiguration_accepts (config : VirtualBranchConfig)
    (branches : StringLookup)
    (hbase : branches.index config.Base = true)
    (htrack : ∀ t ∈ config.Track, branches.index t = true)
    (htarget : matchesWholeName config.Target = true) :
    validateConfiguration config branches = none := by
  have hv : validateBranchesExist branches ([config.Base] ++ config.Track) = none := by
    apply validateBranchesExist_eq_none
    intro b hb
    rcases List.mem_append.mp hb with hb | hb
    · rw [List.mem_singleton.mp hb]; exact hbase
    · exact htrack b hb
  have ht : ValidateTargetBranchName config.Target = true := by
    unfold ValidateTargetBranchName
    rw [branchRegexMatchString_eq_any]
    unfold matchesWholeName at htarget
    simp only [Bool.and_eq_true, Bool.not_eq_true', List.isEmpty_eq_false] at htarget
    obtain ⟨hne, hall⟩ := htarget
    cases hd : config.Target.data with
    | nil => exact absurd hd hne
    | cons c cs =>
      rw [hd] at hall
      simp only [List.all_cons, Bool.and_eq_true] at hall
      simp [hall.1]
  simp only [validateConfiguration, hv, ht]
  rfl

theorem validateConfiguration_accepts_witness :
    validateConfiguration ⟨"x", "main", ["a"]⟩ [("a", true), ("main", true)] = none :=
  validateConfiguration_accepts ⟨"x", "main", ["a"]⟩ [("a", true), ("main", true)]
    (by decide) (by decide) (by decide)

/-! ## Parsing one issue -/

/-- C4: the presence check on the keys Target, Base, Track returns nil exactly
when the metadata defines all three, with any value, the empty ones included.
When some key is undefined it returns `<K> was not defined in configuration`
for the first undefined key `K` in that order, and `processIssue` returns that
error for every issue whose body decodes without error to this metadata.  When
exactly one of the three keys is undefined, the error names that key. -/
theorem isDefinedInMeta_presence (metadata : MetaData) :
    (isDefinedInMeta metadata ["Target", "Base", "Track"] = none ↔
      ∀ k ∈ ["Target", "Base", "Track"], ∃ v, (k, v) ∈ metadata.mapping) ∧
    ((∃ k ∈ ["Target", "Base", "Track"], ∀ v, (k, v) ∉ metadata.mapping) →
      ∃ pre k post, ["Target", "Base", "Track"] = pre ++ k :: post ∧
        (∀ x ∈ pre, ∃ v, (x, v) ∈ metadata.mapping) ∧ (∀ v, (k, v) ∉ metadata.mapping) ∧
        isDefinedInMeta metadata ["Target", "Base", "Track"]
          = some (k ++ " was not defined in configuration") ∧
        ∀ (Decode : String → DecodeResult) (issue : Issue),
          (Decode (Trim issue.GetBody fenceCutset)).meta = metadata →
          (Decode (Trim issue.GetBody fenceCutset)).err = none →
          processIssue Decode issue
            = (zeroConfig, some (k ++ " was not defined in configuration"))) ∧
    (∀ k ∈ ["Target", "Base", "Track"], (∀ v, (k, v) ∉ metadata.mapping) →
      (∀ x ∈ ["Target", "Base", "Track"], x ≠ k → ∃ v, (x, v) ∈ metadata.mapping) →
      isDefinedInMeta metadata ["Target", "Base", "Track"]
        = some (k ++ " was not defined in configuration")) := by
  have first : ∀ pre k post, ["Target", "Base", "Track"] = pre ++ k :: post →
      (∀ x ∈ pre, metadata.IsDefined x = true) → metadata.IsDefined k = false →
      isDefinedInMeta metadata ["Target", "Base", "Track"]
          = some (k ++ " was not defined in configuration") := by
    intro pre k post hl hpre hk
    rw [hl]
    exact isDefinedInMeta_first_undefined metadata pre k post hpre hk
  refine ⟨?_, ?_, ?_⟩
  · rw [isDefinedInMeta_eq_none_iff]
    constructor
    · intro h k hk
      exact (IsDefined_eq_true_iff metadata k).mp (h k hk)
    · intro h k hk
      exact (IsDefined_eq_true_iff metadata k).mpr (h k hk)
  · rintro ⟨k0, hk0, hundef⟩
    obtain ⟨pre, k, post, hl, hpre, hk⟩ :=
      exists_first_false (fun x => metadata.IsDefined x) ["Target", "Base", "Track"]
        ⟨k0, hk0, (IsDefined_eq_false_iff metadata k0).mpr hundef⟩
    have herr := first pre k post hl hpre hk
    refine ⟨pre, k, post, hl, fun x hx => (IsDefined_eq_true_iff metadata x).mp (hpre x hx),
      (IsDefined_eq_false_iff metadata k).mp hk, herr, ?_⟩
    intro Decode issue hmeta hdec
    simp only [processIssue, hdec, hmeta, herr]
  · intro k hk hundef hothers
    have hk2 := (IsDefined_eq_false_iff metadata k).mpr hundef
    have hdef : ∀ x ∈ ["Target", "Base", "Track"], x ≠ k → metadata.IsDefined x = true :=
      fun x hx hne => (IsDefined_eq_true_iff metadata x).mpr (hothers x hx hne)
    simp only [List.mem_cons, List.mem_singleton, List.not_mem_nil, or_false] at hk
    rcases hk with rfl | rfl | rfl
    · exact first [] "Target" ["Base", "Track"] rfl (by simp) hk2
    · refine first ["Target"] "Base" ["Track"] rfl ?_ hk2
      intro x hx
      rw [List.mem_singleton.mp hx]
      exact hdef "Target" (by simp) (by decide)
    · refine first ["Target", "Base"] "Track" [] rfl ?_ hk2
      intro x hx
      simp only [List.mem_cons, List.mem_singleton, List.not_mem_nil, or_false] at hx
      rcases hx with rfl | rfl
      · exact hdef "Target" (by simp) (by decide)
      · exact hdef "Base" (by simp) (by decide)

theorem isDefinedInMeta_presence_witness :
    isDefinedInMeta ⟨[("Target", TomlValue.str ""), ("Base", TomlValue.str "")]⟩
        ["Target", "Base", "Track"]
      = some ("Track" ++ " was not defined in configuration") ∧
    (isDefinedInMeta
        ⟨[("Target", TomlValue.str ""), ("Base", TomlValue.str ""), ("Track", TomlValue.strs [])]⟩
        ["Target", "Base", "Track"] = none) ∧
    (∃ k, processIssue sampleDecode ⟨some "Target = \"y\"\nBase = \"main\""⟩
      = (zeroConfig, some (k ++ " was not defined in configuration"))) :=
  ⟨(isDefinedInMeta_presence
      ⟨[("Target", TomlValue.str ""), ("Base", TomlValue.str "")]⟩).2.2
      "Track" (by simp) (by simp) (by simp),
    (isDefinedInMeta_presence
      ⟨[("Target", TomlValue.str ""), ("Base", TomlValue.str ""),
        ("Track", TomlValue.strs [])]⟩).1.mpr (by simp),
    let ⟨_, k, _, _, _, _, _, h⟩ := (isDefinedInMeta_presence
      ⟨[("Target", TomlValue.str "y"), ("Base", TomlValue.str "main")]⟩).2.1
      ⟨"Track", by simp, by simp⟩
    ⟨k, h sampleDecode ⟨some "Target = \"y\"\nBase = \"main\""⟩ rfl rfl⟩⟩

/-- C5: for every body `b`, every opening marker among the empty one, one
backtick, three backticks and three backticks followed by `toml`, and every
closing marker among the empty one, one backtick and three backticks, trimming
the wrapped body gives the same text as trimming `b`, and `processIssue`
returns the same config and the same error for both, whatever the decoder. -/
theorem processIssue_fence_invariant (Decode : String → DecodeResult)
    (b opening closing : String)
    (ho : opening ∈ ["", "`", "```", "```toml"]) (hc : closing ∈ ["", "`", "```"]) :
    Trim (opening ++ b ++ closing) fenceCutset = Trim b fenceCutset ∧
    processIssue Decode ⟨some (opening ++ b ++ closing)⟩ = processIssue Decode ⟨some b⟩ := by
  have ho2 : ∀ c ∈ opening.data, fenceCutset.data.contains c = true := by
    simp only [List.mem_cons, List.mem_singleton, List.not_mem_nil, or_false] at ho
    rcases ho with rfl | rfl | rfl | rfl <;> decide
  have hc2 : ∀ c ∈ closing.data, fenceCutset.data.contains c = true := by
    simp only [List.mem_cons, List.mem_singleton, List.not_mem_nil, or_false] at hc
    rcases hc with rfl | rfl | rfl <;> decide
  have ht := Trim_wrapped opening b closing fenceCutset ho2 hc2
  refine ⟨ht, ?_⟩
  simp only [processIssue, Issue.GetBody, Option.getD_some, ht]

theorem processIssue_fence_invariant_witness :
    Trim ("```toml" ++ "\nTarget = \"x\"\nBase = \"main\"\nTrack = [\"a\"]\n" ++ "```")
        fenceCutset
      = Trim "\nTarget = \"x\"\nBase = \"main\"\nTrack = [\"a\"]\n" fenceCutset ∧
    processIssue (fun _ => ⟨⟨[]⟩, ⟨"", "", []⟩, none⟩)
        ⟨some ("```toml" ++ "\nTarget = \"x\"\nBase = \"main\"\nTrack = [\"a\"]\n" ++ "```")⟩
      = processIssue (fun _ => ⟨⟨[]⟩, ⟨"", "", []⟩, none⟩)
        ⟨some "\nTarget = \"x\"\nBase = \"main\"\nTrack = [\"a\"]\n"⟩ :=
  processIssue_fence_invariant _ _ "```toml" "```" (by decide) (by decide)

/-- C6: the body `m = 1`, followed by the Target, Base and Track lines, neither
begins nor ends with a backtick, yet the text handed to the decoder is not the
body: the leading `m` is removed, because it belongs to the cutset. -/
theorem Trim_alters_unfenced_body :
    ("m = 1\nTarget = \"x\"\nBase = \"main\"\nTrack = [\"a\"]").data.head? = some 'm' ∧
    ("m = 1\nTarget = \"x\"\nBase = \"main\"\nTrack = [\"a\"]").data.getLast? = some ']' ∧
    Trim "m = 1\nTarget = \"x\"\nBase = \"main\"\nTrack = [\"a\"]" fenceCutset
      = " = 1\nTarget = \"x\"\nBase = \"main\"\nTrack = [\"a\"]" ∧
    Trim "m = 1\nTarget = \"x\"\nBase = \"main\"\nTrack = [\"a\"]" fenceCutset
      ≠ "m = 1\nTarget = \"x\"\nBase = \"main\"\nTrack = [\"a\"]" := by
  decide

/-! ## Collecting the configurations -/

/-- C7: when the branch lookup and the issues are both retrieved without error,
`GetConfigurations` returns a nil error and exactly the configs, in issue
order and as `processIssue` produced them, of the issues that `processIssue`
and `validateConfiguration` both accept; the number of configs is the number of
issues minus the number of issues that fail either step. -/
theorem GetConfigurations_returns_accepted (g : Provider)
    (Decode : String → DecodeResult) (fuel : Nat) (i : Outcome (List Issue))
    (hb : (getExistingBranches g).err = none)
    (hi : getAllIssues g fuel = some i) (hie : i.err = none) :
    ∃ o, GetConfigurations g Decode fuel = some o ∧ o.err = none ∧
      o.value = (i.value.filter (accepted Decode (getExistingBranches g).value)).map
        (fun issue => (processIssue Decode issue).1) ∧
      o.value.length = i.value.length
        - i.value.countP (fun issue => !accepted Decode (getExistingBranches g).value issue) := by
  have hval := foldl_issueStep_fst Decode (getExistingBranches g).value i.value ([], [])
  have hg : GetConfigurations g Decode fuel
      = some ⟨(getExistingBranches g).trace ++ i.trace
          ++ (i.value.foldl (issueStep Decode (getExistingBranches g).value) ([], [])).2,
        (i.value.foldl (issueStep Decode (getExistingBranches g).value) ([], [])).1, none⟩ := by
    simp only [GetConfigurations, hb, hi, hie]
  refine ⟨_, hg, rfl, ?_, ?_⟩
  · simpa using hval
  · have hlen := List.length_eq_countP_add_countP
      (accepted Decode (getExistingBranches g).value) i.value
    have hcount : List.countP (fun issue => !accepted Decode (getExistingBranches g).value issue)
        i.value
        = List.countP (fun issue => ¬ accepted Decode (getExistingBranches g).value issue = true)
          i.value := by
      congr 1
      funext issue
      simp
    simp only [hval, List.nil_append, List.length_map, ← List.countP_eq_length_filter]
    omega

theorem GetConfigurations_returns_accepted_witness :
    ∃ o, GetConfigurations (sampleProvider sampleTracker sampleRepository) sampleDecode 3
        = some o ∧ o.err = none ∧
      o.value = [⟨"x", "main", ["a"]⟩, ⟨"x", "main", ["a"]⟩] ∧
      o.value.length = 4 - 2 :=
  GetConfigurations_returns_accepted (sampleProvider sampleTracker sampleRepository)
    sampleDecode 3
    ⟨[Event.ListByRepo 0, Event.ListByRepo 2],
      (sampleTracker.ListByRepo "" "" ⟨"", [], 0⟩).issues
        ++ (sampleTracker.ListByRepo "" "" ⟨"", [], 2⟩).issues, none⟩
    rfl rfl rfl

/-- C9: when retrieving the branch lookup fails, `GetConfigurations` returns a
nil list and that error after the single call `Branches`, so no issue is
requested or processed; when the request of some page of issues fails,
`getAllIssues` returns no issues and the wrapped error, and `GetConfigurations`
returns a nil list and that same error. -/
theorem GetConfigurations_fatal (g : Provider) (Decode : String → DecodeResult) :
    (∀ e, (getExistingBranches g).err = some e →
      ∀ fuel, ∃ o, GetConfigurations g Decode fuel = some o ∧
        o.trace = [Event.Branches] ∧ o.value = [] ∧ o.err = some e) ∧
    (∀ k page e,
      pageOfIteration g { State := "open", Labels := [g.Label], Page := 0 } k = some page →
      (g.GitHubClient.ListByRepo g.Owner g.Repository
        { State := "open", Labels := [g.Label], Page := page }).err = some e →
      ∀ fuel, k < fuel →
        (∃ i, getAllIssues g fuel = some i ∧ i.value = [] ∧
          i.err = some ("error retrieving issues from github: " ++ e)) ∧
        ((getExistingBranches g).err = none →
          ∃ o, GetConfigurations g Decode fuel = some o ∧ o.value = [] ∧
            o.err = some ("error retrieving issues from github: " ++ e))) := by
  constructor
  · intro e he fuel
    have hg : GetConfigurations g Decode fuel
        = some ⟨(getExistingBranches g).trace, [], some e⟩ := by
      simp only [GetConfigurations, he]
    exact ⟨_, hg, getExistingBranches_trace g, rfl, rfl⟩
  · intro k page e hpage herr fuel hfuel
    obtain ⟨tr, htr⟩ := getAllIssuesLoop_error g k fuel
      { State := "open", Labels := [g.Label], Page := 0 } [] page e hpage herr hfuel
    have hget : getAllIssues g fuel
        = some ⟨tr, [], some ("error retrieving issues from github: " ++ e)⟩ := htr
    refine ⟨⟨_, hget, rfl, rfl⟩, ?_⟩
    intro hb
    have hg : GetConfigurations g Decode fuel
        = some ⟨(getExistingBranches g).trace ++ tr, [],
          some ("error retrieving issues from github: " ++ e)⟩ := by
      simp only [GetConfigurations, hb, hget]
    exact ⟨_, hg, rfl, rfl⟩

theorem GetConfigurations_fatal_witness :
    (∃ o, GetConfigurations (sampleProvider sampleTracker brokenRepository) sampleDecode 0
        = some o ∧ o.trace = [Event.Branches] ∧ o.value = [] ∧
        o.err = some "error getting branches: repository does not exist") ∧
    (∃ i, getAllIssues (sampleProvider failingTracker sampleRepository) 2 = some i ∧
        i.value = [] ∧
        i.err = some ("error retrieving issues from github: " ++ "502 Bad Gateway")) ∧
    (∃ o, GetConfigurations (sampleProvider failingTracker sampleRepository) sampleDecode 2
        = some o ∧ o.value = [] ∧
        o.err = some ("error retrieving issues from github: " ++ "502 Bad Gateway")) :=
  have hb := (GetConfigurations_fatal (sampleProvider sampleTracker brokenRepository)
    sampleDecode).1 "error getting branches: repository does not exist" rfl 0
  have hi := (GetConfigurations_fatal (sampleProvider failingTracker sampleRepository)
    sampleDecode).2 1 2 "502 Bad Gateway" rfl rfl 2 (by decide)
  ⟨hb, hi.1, hi.2 rfl⟩

/-! ## Applying the configurations -/

/-- C8: on two configs of which the first fails to apply (its fetch is
refused), `ApplyConfigurations` does attempt both in order, but the error that
`applyConfiguration` returned for the first is not in the result: the slice of
per-config errors is empty instead of holding two entries with the first
non-nil. -/
theorem ApplyConfigurations_drops_errors :
    (applyConfiguration (sampleProvider sampleTracker sampleRepository)
        ⟨"x", "main", ["b"]⟩).2 = some "reference not found" ∧
    (applyConfiguration (sampleProvider sampleTracker sampleRepository)
        ⟨"y", "main", ["a"]⟩).2 = none ∧
    (ApplyConfigurations (sampleProvider sampleTracker sampleRepository)
        [⟨"x", "main", ["b"]⟩, ⟨"y", "main", ["a"]⟩]).trace
      = [Event.FetchContext "refs/remotes/orign/b", Event.FetchContext "refs/remotes/orign/a",
          Event.CommitObjects] ∧
    (ApplyConfigurations (sampleProvider sampleTracker sampleRepository)
        [⟨"x", "main", ["b"]⟩, ⟨"y", "main", ["a"]⟩]).value = [] ∧
    (ApplyConfigurations (sampleProvider sampleTracker sampleRepository)
        [⟨"x", "main", ["b"]⟩, ⟨"y", "main", ["a"]⟩]).err = none := by
  decide

/-- C10: for a config that tracks the single branch `a`, `applyConfiguration`
issues one fetch, and the reference it fetches is `refs/remotes/orign/a`, not
the reference `refs/remotes/origin/a` of branch `a` on the origin remote. -/
theorem applyConfiguration_fetches_orign :
    fetchedRefs (applyConfiguration (sampleProvider sampleTracker sampleRepository)
        ⟨"x", "main", ["a"]⟩).1 = ["refs/remotes/orign/a"] ∧
    fetchedRefs (applyConfiguration (sampleProvider sampleTracker sampleRepository)
        ⟨"x", "main", ["a"]⟩).1 ≠ ["refs/remotes/origin/a"] := by
  decide

end VirtualBranches
